import Mathlib

/-!
Shallow embedding of the TTL response cache (`apiCache.js`) and its domain
orchestrator (`dataManager.js`) from the shilpkar-mahila-bachat-gat repository.

JavaScript objects used as string-keyed dictionaries (`this.memory`,
`this.listeners`) are modelled as association lists in insertion order:
assignment replaces in place or appends, `delete` removes the binding.
Asynchronous remote calls are modelled by passing the transport's outcome
(`Except String α`: a decoded body on success, an error message on a network
rejection or a non-ok status) as an explicit argument.  Wall-clock time is an
explicit `now : Nat` argument (milliseconds).  Subscriber callbacks are
modelled by numeric identifiers together with a behaviour map
`throws : Nat → Bool` saying which callback raises when invoked; JS reference
equality of callbacks becomes equality of identifiers.
-/

/-- A JavaScript object used as a string-keyed dictionary, in property
insertion order. -/
abbrev JMap (β : Type) := List (String × β)

namespace JMap

/-- Property read `obj[k]`: the first binding of `k`, if any. -/
def get {β : Type} : JMap β → String → Option β
  | [], _ => none
  | (k', v) :: rest, k => if k' == k then some v else get rest k

/-- Property write `obj[k] = v`: replace the binding in place, else append. -/
def set {β : Type} : JMap β → String → β → JMap β
  | [], k, v => [(k, v)]
  | (k', v') :: rest, k, v =>
    if k' == k then (k, v) :: rest else (k', v') :: set rest k v

/-- Property removal `delete obj[k]`. -/
def erase {β : Type} : JMap β → String → JMap β
  | [], _ => []
  | (k', v) :: rest, k =>
    if k' == k then erase rest k else (k', v) :: erase rest k

end JMap

deriving instance DecidableEq for Except

/-- One cache entry: the last fetched payload with its absolute expiry
timestamp (`Date.now() + ttl`). -/
structure Entry (α : Type) where
  data : α
  expiresAt : Nat
deriving Repr, DecidableEq

/-- The in-memory store `this.memory`. -/
abbrev Store (α : Type) := JMap (Entry α)

/-- The subscriber registry `this.listeners`: cache key to the ordered list of
registered callback identifiers. -/
abbrev Listeners := JMap (List Nat)

/-- The mutable state of the `ApiCache` singleton. -/
structure CacheState (α : Type) where
  memory : Store α
  listeners : Listeners
deriving Repr, DecidableEq

/-- Callback list for a key (`this.listeners[cacheKey]`, absent meaning no
registrations). -/
def listenersFor (ls : Listeners) (k : String) : List Nat :=
  (JMap.get ls k).getD []

namespace ApiCache

def CACHE_KEY_PREFIX : String := "api_cache_"

/-- Default conversion JS applies to an entry pair inside `Array.sort()`:
`String([k, v])` is `k + "," + v`. -/
def pairToStr (p : String × String) : String := p.1 ++ "," ++ p.2

/-- Lexicographic comparison of character sequences by code point, the order
JS string comparison (`<` on strings, hence default `sort()`) uses. -/
def charsLe : List Char → List Char → Bool
  | [], _ => true
  | _ :: _, [] => false
  | a :: as, b :: bs =>
    if a.toNat = b.toNat then charsLe as bs
    else decide (a.toNat < b.toNat)

/-- JS string comparison `a <= b`. -/
def strLe (a b : String) : Bool := charsLe a.toList b.toList

/-- The default `Array.sort()` comparison applied to two entry pairs. -/
def pairLe (p q : String × String) : Bool := strLe (pairToStr p) (pairToStr q)

/-- Insert a pair into an already sorted list, before the first element not
strictly below it (so an element inserted from the left stays before later
elements that compare equal, matching the stability of `Array.sort()`). -/
def orderedIns (p : String × String) :
    List (String × String) → List (String × String)
  | [] => [p]
  | q :: rest => if pairLe p q then p :: q :: rest else q :: orderedIns p rest

/-- `Object.entries(filters).sort()`: stable sort by the default string
conversion of each `[k, v]` pair. -/
def entriesSort : List (String × String) → List (String × String)
  | [] => []
  | p :: rest => orderedIns p (entriesSort rest)

/-- `getCacheKey(endpoint, filters)` from `apiCache.js`. -/
def getCacheKey (endpoint : String) (filters : List (String × String)) : String :=
  let filterStr :=
    String.intercalate "&" ((entriesSort filters).map (fun p => p.1 ++ "=" ++ p.2))
  CACHE_KEY_PREFIX ++ endpoint ++ (if filterStr == "" then "" else "_" ++ filterStr)

/-- `isValidCache(key)`: validity check with lazy eviction.  Returns the
validity verdict together with the store after the check (`delete
this.memory[key]` when the entry has expired).  JS truthiness of `expiresAt`
is `expiresAt ≠ 0`. -/
def isValidCache {α : Type} (mem : Store α) (now : Nat) (key : String) :
    Bool × Store α :=
  match JMap.get mem key with
  | none => (false, mem)
  | some e =>
    if e.expiresAt ≠ 0 ∧ now > e.expiresAt then (false, JMap.erase mem key)
    else (true, mem)

/-- `getCached(key)`: the entry's payload, or `null` when absent. -/
def getCached {α : Type} (mem : Store α) (key : String) : Option α :=
  (JMap.get mem key).map Entry.data

/-- `setCached(key, data, ttl)`: store the payload with expiry
`Date.now() + ttl`. -/
def setCached {α : Type} (mem : Store α) (key : String) (data : α)
    (ttl now : Nat) : Store α :=
  JMap.set mem key ⟨data, now + ttl⟩

/-- One pass of `notifyListeners`'s `forEach` over the registered callbacks:
each callback is invoked in order until one raises; the pair is the list of
callbacks actually invoked (the raiser included) and whether one raised,
aborting the iteration. -/
def runCallbacks (throws : Nat → Bool) : List Nat → List Nat × Bool
  | [] => ([], false)
  | c :: rest =>
    if throws c then ([c], true)
    else
      let r := runCallbacks throws rest
      (c :: r.1, r.2)

/-- Everything observable about one `fetch` call: the value returned or the
error raised, the cache state afterwards, whether the remote transport was
invoked, and which subscriber callbacks were invoked. -/
structure FetchResult (α : Type) where
  result : Except String (Option α)
  state : CacheState α
  remoteCalled : Bool
  fired : List Nat
deriving Repr

/-- The body of `fetch` past the cache-hit check: remote call, `setCached`,
`notifyListeners`, and the `catch` block with its stale fallback.  A callback
that raises is caught by the same `try`/`catch`; the entry for `key` was just
written, so the stale fallback returns the fresh payload. -/
def fetchRemote {α : Type} (throws : Nat → Bool) (st : CacheState α)
    (key : String) (now ttl : Nat) (remote : Except String α) : FetchResult α :=
  match remote with
  | .ok data =>
    let mem2 := setCached st.memory key data ttl now
    let n := runCallbacks throws (listenersFor st.listeners key)
    if n.2 then
      match JMap.get mem2 key with
      | some e => ⟨.ok (some e.data), ⟨mem2, st.listeners⟩, true, n.1⟩
      | none => ⟨.error "listener raised", ⟨mem2, st.listeners⟩, true, n.1⟩
    else ⟨.ok (some data), ⟨mem2, st.listeners⟩, true, n.1⟩
  | .error msg =>
    match JMap.get st.memory key with
    | some stale => ⟨.ok (some stale.data), st, true, []⟩
    | none => ⟨.error msg, st, true, []⟩

/-- `fetch(endpoint, options)` from `apiCache.js`.  `remote` is the outcome
of the transport call, consumed only if one is made.  Note the JS guard
`!forceRefresh && this.isValidCache(cacheKey)` short-circuits: with
`forceRefresh` true, `isValidCache` (and its lazy eviction) never runs. -/
def fetch {α : Type} (throws : Nat → Bool) (st : CacheState α) (now : Nat)
    (endpoint : String) (filters : List (String × String)) (ttl : Nat)
    (forceRefresh : Bool) (remote : Except String α) : FetchResult α :=
  let key := getCacheKey endpoint filters
  if forceRefresh then fetchRemote throws st key now ttl remote
  else
    let r := isValidCache st.memory now key
    if r.1 then ⟨.ok (getCached r.2 key), ⟨r.2, st.listeners⟩, false, []⟩
    else fetchRemote throws ⟨r.2, st.listeners⟩ key now ttl remote

/-- `invalidate(endpoint, filters)`: remove the entry for the derived key. -/
def invalidate {α : Type} (mem : Store α) (endpoint : String)
    (filters : List (String × String)) : Store α :=
  JMap.erase mem (getCacheKey endpoint filters)

/-- `onUpdate(cacheKey, callback)`: create the list when absent, then push the
callback registration. -/
def onUpdate (ls : Listeners) (cacheKey : String) (c : Nat) : Listeners :=
  JMap.set ls cacheKey (listenersFor ls cacheKey ++ [c])

/-- The unsubscribe closure returned by `onUpdate`:
`listeners[cacheKey] = listeners[cacheKey].filter(cb => cb !== callback)`. -/
def unsubscribe (ls : Listeners) (cacheKey : String) (c : Nat) : Listeners :=
  JMap.set ls cacheKey ((listenersFor ls cacheKey).filter (fun x => !(x == c)))

end ApiCache

/-- Does the needle occur at the head of the haystack? -/
def leadMatch : List Char → List Char → Bool
  | [], _ => true
  | _ :: _, [] => false
  | n :: ns, h :: hs => n == h && leadMatch ns hs

/-- Does the needle occur anywhere in the haystack? -/
def subSearch (needle : List Char) : List Char → Bool
  | [] => needle.isEmpty
  | h :: hs => leadMatch needle (h :: hs) || subSearch needle hs

/-- JS `hay.includes(needle)` on strings. -/
def includesStr (hay needle : String) : Bool := subSearch needle.toList hay.toList

/-- A spreadsheet row as the orchestrator sees it: the fields the core reads
(`Name`, `Id`; `none` models an absent field) plus the remaining columns,
opaque to the core. -/
structure Row where
  Name : Option String
  Id : Option String
  extra : String
deriving Repr, DecidableEq

/-- JS truthiness of an optional string field: present and non-empty. -/
def truthy : Option String → Bool
  | none => false
  | some s => !(s == "")

/-- An HTTP response as the write paths see it: the `ok` flag and the decoded
body `response.json()` would produce. -/
structure Resp where
  ok : Bool
  body : String
deriving Repr, DecidableEq

/-- Result of an orchestrator write: the value returned or error raised, and
the cache state afterwards. -/
structure WriteResult where
  result : Except String String
  state : CacheState (List Row)
deriving Repr

namespace dataManager

def BASE_URL : String := "https://sheetdb.io/api/v1/254cxsbebm3n7"

def MEMBERS : String := BASE_URL ++ "?sheet=Member List"

def TRANSACTIONS : String := BASE_URL ++ "?sheet=Transactions"

def LOANS : String := BASE_URL ++ "?sheet=Loan Details"

def CACHE_TTL_MEMBERS : Nat := 30 * 60 * 1000

def CACHE_TTL_TRANSACTIONS : Nat := 15 * 60 * 1000

def CACHE_TTL_LOANS : Nat := 15 * 60 * 1000

/-- `getMembers(forceRefresh)`. -/
def getMembers (throws : Nat → Bool) (st : CacheState (List Row)) (now : Nat)
    (forceRefresh : Bool) (remote : Except String (List Row)) :
    ApiCache.FetchResult (List Row) :=
  ApiCache.fetch throws st now MEMBERS [] CACHE_TTL_MEMBERS forceRefresh remote

/-- `searchMembers(query)`: local, case-insensitive substring filter over the
cached member list. -/
def searchMembers (mem : Store (List Row)) (query : String) : List Row :=
  match ApiCache.getCached mem (ApiCache.getCacheKey MEMBERS []) with
  | none => []
  | some data =>
    if query == "" then data
    else
      let q := query.toLower
      data.filter (fun m => truthy m.Name && includesStr (m.Name.getD "").toLower q)

/-- `addMember(memberData)`: POST, throw on non-ok, else invalidate the
members key and return the body. -/
def addMember (_memberData : Row) (st : CacheState (List Row)) (resp : Resp) :
    WriteResult :=
  if resp.ok then ⟨.ok resp.body, ⟨ApiCache.invalidate st.memory MEMBERS [], st.listeners⟩⟩
  else ⟨.error "Failed to add member", st⟩

/-- `addTransaction(transactionData)`. -/
def addTransaction (_transactionData : Row) (st : CacheState (List Row))
    (resp : Resp) : WriteResult :=
  if resp.ok then ⟨.ok resp.body, ⟨ApiCache.invalidate st.memory TRANSACTIONS [], st.listeners⟩⟩
  else ⟨.error "Failed to add transaction", st⟩

/-- `updateLoan(loanId, loanData)`. -/
def updateLoan (_loanId : String) (_loanData : Row) (st : CacheState (List Row))
    (resp : Resp) : WriteResult :=
  if resp.ok then ⟨.ok resp.body, ⟨ApiCache.invalidate st.memory LOANS [], st.listeners⟩⟩
  else ⟨.error "Failed to update loan", st⟩

/-- `addLoan(loanData)`. -/
def addLoan (_loanData : Row) (st : CacheState (List Row)) (resp : Resp) :
    WriteResult :=
  if resp.ok then ⟨.ok resp.body, ⟨ApiCache.invalidate st.memory LOANS [], st.listeners⟩⟩
  else ⟨.error "Failed to add loan", st⟩

/-- `deleteMember(memberName)`: invalidates both members and transactions. -/
def deleteMember (_memberName : String) (st : CacheState (List Row))
    (resp : Resp) : WriteResult :=
  if resp.ok then
    ⟨.ok resp.body,
      ⟨ApiCache.invalidate (ApiCache.invalidate st.memory MEMBERS []) TRANSACTIONS [],
        st.listeners⟩⟩
  else ⟨.error "Failed to delete member", st⟩

/-- `deleteTransactions(memberName)`. -/
def deleteTransactions (_memberName : String) (st : CacheState (List Row))
    (resp : Resp) : WriteResult :=
  if resp.ok then ⟨.ok resp.body, ⟨ApiCache.invalidate st.memory TRANSACTIONS [], st.listeners⟩⟩
  else ⟨.error "Failed to delete transactions", st⟩

/-- `deleteTransactionById(id)`: throws on non-ok, otherwise returns the body
with no cache invalidation at all. -/
def deleteTransactionById (_id : String) (st : CacheState (List Row))
    (resp : Resp) : WriteResult :=
  if resp.ok then ⟨.ok resp.body, st⟩
  else ⟨.error "Failed to delete transaction", st⟩

/-- Result of `updateMember`, which may stop before the remote write. -/
structure MemberUpdateResult where
  result : Except String String
  state : CacheState (List Row)
  wroteRemote : Bool
deriving Repr

/-- `updateMember(memberName, updates)`: forced-fresh member list via
`getMembers(true)`, lookup by exact `Name`, not-found guard on a missing
record or falsy `Id`, then the PUT (`putResp`), cache invalidation on
success only.  The `updates` merge only affects the request body, which is
opaque here. -/
def updateMember (throws : Nat → Bool) (st : CacheState (List Row)) (now : Nat)
    (memberName : String) (membersRemote : Except String (List Row))
    (putResp : Resp) : MemberUpdateResult :=
  let f := getMembers throws st now true membersRemote
  match f.result with
  | .error e => ⟨.error e, f.state, false⟩
  | .ok none => ⟨.error "TypeError: members is null", f.state, false⟩
  | .ok (some members) =>
    match members.find? (fun m => m.Name == some memberName) with
    | none =>
      ⟨.error ("Member \"" ++ memberName ++ "\" not found or missing Id"),
        f.state, false⟩
    | some member =>
      if truthy member.Id then
        if putResp.ok then
          ⟨.ok putResp.body,
            ⟨ApiCache.invalidate f.state.memory MEMBERS [], f.state.listeners⟩,
            true⟩
        else ⟨.error "Failed to update member", f.state, true⟩
      else
        ⟨.error ("Member \"" ++ memberName ++ "\" not found or missing Id"),
          f.state, false⟩

end dataManager

/-! Basic lemmas about the dictionary model. -/

theorem JMap.get_set_self {β : Type} (m : JMap β) (k : String) (v : β) :
    JMap.get (JMap.set m k v) k = some v := by
  induction m with
  | nil => simp [JMap.get, JMap.set]
  | cons hd tl ih =>
    obtain ⟨k', v'⟩ := hd
    by_cases h : (k' == k) = true
    · simp [JMap.get, JMap.set, h]
    · simp [JMap.get, JMap.set, h, ih]

theorem JMap.get_set_ne {β : Type} (m : JMap β) (k k2 : String) (v : β)
    (h : k2 ≠ k) : JMap.get (JMap.set m k v) k2 = JMap.get m k2 := by
  induction m with
  | nil =>
    simp only [JMap.get, JMap.set]
    rw [if_neg (by simpa using fun hh : k = k2 => h hh.symm)]
  | cons hd tl ih =>
    obtain ⟨k', v'⟩ := hd
    by_cases hk : k' = k
    · subst hk
      have hne : ¬ (k' == k2) = true := by
        simpa using fun hh : k' = k2 => h hh.symm
      simp [JMap.get, JMap.set, hne]
    · have hk' : ¬ (k' == k) = true := by simpa using hk
      simp only [JMap.set, hk', if_false, JMap.get]
      by_cases h2 : (k' == k2) = true <;> simp [h2, ih]

theorem JMap.get_erase_self {β : Type} (m : JMap β) (k : String) :
    JMap.get (JMap.erase m k) k = none := by
  induction m with
  | nil => simp [JMap.get, JMap.erase]
  | cons hd tl ih =>
    obtain ⟨k', v'⟩ := hd
    by_cases h : (k' == k) = true
    · simp [JMap.erase, h, ih]
    · simp [JMap.erase, h, JMap.get, ih]

theorem JMap.erase_of_get_none {β : Type} (m : JMap β) (k : String)
    (h : JMap.get m k = none) : JMap.erase m k = m := by
  induction m with
  | nil => simp [JMap.erase]
  | cons hd tl ih =>
    obtain ⟨k', v'⟩ := hd
    by_cases hk : (k' == k) = true
    · simp [JMap.get, hk] at h
    · simp only [JMap.get, hk, if_false] at h
      simp [JMap.erase, hk, ih h]

/-! Lemmas about the `Array.sort()` comparison and the stable sort. -/

theorem ApiCache.charsLe_total : ∀ x y : List Char,
    charsLe x y = true ∨ charsLe y x = true
  | [], _ => Or.inl rfl
  | _ :: _, [] => Or.inr rfl
  | a :: as, b :: bs => by
    by_cases h : a.toNat = b.toNat
    · rcases ApiCache.charsLe_total as bs with h' | h'
      · exact Or.inl (by simp [charsLe, h, h'])
      · exact Or.inr (by simp [charsLe, h, h'])
    · rcases Nat.lt_or_ge a.toNat b.toNat with hl | hl
      · exact Or.inl (by simp [charsLe, h, hl])
      · have hne : ¬ b.toNat = a.toNat := fun e => h e.symm
        have hgt : b.toNat < a.toNat := lt_of_le_of_ne hl hne
        exact Or.inr (by simp only [charsLe, if_neg hne]; simpa using hgt)

theorem ApiCache.charsLe_trans : ∀ x y z : List Char,
    charsLe x y = true → charsLe y z = true → charsLe x z = true
  | [], _, _, _, _ => rfl
  | _ :: _, [], _, h1, _ => by simp [charsLe] at h1
  | _ :: _, _ :: _, [], _, h2 => by simp [charsLe] at h2
  | a :: as, b :: bs, c :: cs, h1, h2 => by
    by_cases hab : a.toNat = b.toNat <;> by_cases hbc : b.toNat = c.toNat
    · have hac : a.toNat = c.toNat := hab.trans hbc
      simp only [charsLe, hab, if_pos rfl, hbc, hac, if_true] at h1 h2 ⊢
      · exact ApiCache.charsLe_trans as bs cs h1 h2
    · simp only [charsLe, if_pos hab] at h1
      simp only [charsLe, if_neg hbc] at h2
      have hltbc : b.toNat < c.toNat := by simpa using h2
      have hltac : a.toNat < c.toNat := hab ▸ hltbc
      simp [charsLe, Nat.ne_of_lt hltac, hltac]
    · simp only [charsLe, if_neg hab] at h1
      have hltab : a.toNat < b.toNat := by simpa using h1
      have hltac : a.toNat < c.toNat := hbc ▸ hltab
      simp [charsLe, Nat.ne_of_lt hltac, hltac]
    · simp only [charsLe, if_neg hab] at h1
      simp only [charsLe, if_neg hbc] at h2
      have hltab : a.toNat < b.toNat := by simpa using h1
      have hltbc : b.toNat < c.toNat := by simpa using h2
      have hltac : a.toNat < c.toNat := hltab.trans hltbc
      simp [charsLe, Nat.ne_of_lt hltac, hltac]

theorem ApiCache.charsLe_antisymm : ∀ x y : List Char,
    charsLe x y = true → charsLe y x = true → x = y
  | [], [], _, _ => rfl
  | [], _ :: _, _, h2 => by simp [charsLe] at h2
  | _ :: _, [], h1, _ => by simp [charsLe] at h1
  | a :: as, b :: bs, h1, h2 => by
    by_cases hab : a.toNat = b.toNat
    · have hc : a = b := by
        apply Char.ext
        apply UInt32.ext
        simpa [Char.toNat] using hab
      simp only [charsLe, if_pos hab] at h1
      simp only [charsLe, if_pos hab.symm] at h2
      rw [hc, ApiCache.charsLe_antisymm as bs h1 h2]
    · have hba : ¬ b.toNat = a.toNat := fun e => hab e.symm
      simp only [charsLe, if_neg hab] at h1
      simp only [charsLe, if_neg hba] at h2
      have hltab : a.toNat < b.toNat := by simpa using h1
      have hltba : b.toNat < a.toNat := by simpa using h2
      exact absurd hltba (Nat.lt_asymm hltab)

theorem ApiCache.pairLe_total (p q : String × String) :
    pairLe p q = true ∨ pairLe q p = true :=
  charsLe_total _ _

theorem ApiCache.pairLe_trans {p q r : String × String}
    (h1 : pairLe p q = true) (h2 : pairLe q r = true) : pairLe p r = true :=
  charsLe_trans _ _ _ h1 h2

theorem ApiCache.pairToStr_eq_of_pairLe {p q : String × String}
    (h1 : pairLe p q = true) (h2 : pairLe q p = true) :
    pairToStr p = pairToStr q :=
  String.toList_inj.mp (charsLe_antisymm _ _ h1 h2)

theorem ApiCache.perm_orderedIns (p : String × String) :
    ∀ l : List (String × String), (orderedIns p l).Perm (p :: l)
  | [] => List.Perm.refl _
  | q :: rest => by
    by_cases hpq : pairLe p q = true
    · rw [orderedIns, if_pos hpq]
    · rw [orderedIns, if_neg hpq]
      exact ((ApiCache.perm_orderedIns p rest).cons q).trans (List.Perm.swap p q rest)

theorem ApiCache.perm_entriesSort : ∀ l : List (String × String),
    (entriesSort l).Perm l
  | [] => List.Perm.refl _
  | p :: rest =>
    (perm_orderedIns p (entriesSort rest)).trans
      ((ApiCache.perm_entriesSort rest).cons p)

theorem ApiCache.sorted_orderedIns (p : String × String) :
    ∀ l : List (String × String),
      l.Sorted (fun a b => pairLe a b = true) →
      (orderedIns p l).Sorted (fun a b => pairLe a b = true)
  | [], _ => by simp [orderedIns]
  | q :: rest, h => by
    rcases List.sorted_cons.mp h with ⟨hq, hrest⟩
    by_cases hpq : pairLe p q = true
    · rw [orderedIns, if_pos hpq]
      refine List.sorted_cons.mpr ⟨?_, h⟩
      intro c hc
      rcases List.mem_cons.mp hc with rfl | hc
      · exact hpq
      · exact pairLe_trans hpq (hq c hc)
    · rw [orderedIns, if_neg hpq]
      refine List.sorted_cons.mpr ⟨?_, ApiCache.sorted_orderedIns p rest hrest⟩
      intro c hc
      rcases List.mem_cons.mp ((perm_orderedIns p rest).mem_iff.mp hc) with rfl | hc'
      · exact (pairLe_total c q).resolve_left hpq
      · exact hq c hc'

theorem ApiCache.sorted_entriesSort : ∀ l : List (String × String),
    (entriesSort l).Sorted (fun a b => pairLe a b = true)
  | [] => List.sorted_nil
  | p :: rest => sorted_orderedIns p _ (ApiCache.sorted_entriesSort rest)

/-- Two sorted lists that are permutations of each other and whose elements
have pairwise distinct sort keys are equal. -/
theorem ApiCache.sortedPermEq :
    ∀ l1 l2 : List (String × String), l1.Perm l2 →
      l1.Sorted (fun a b => pairLe a b = true) →
      l2.Sorted (fun a b => pairLe a b = true) →
      (∀ p ∈ l1, ∀ q ∈ l1, pairToStr p = pairToStr q → p = q) →
      l1 = l2
  | [], l2, hp, _, _, _ => (List.perm_nil.mp hp.symm).symm ▸ rfl
  | a :: t1, [], hp, _, _, _ => by
    exact absurd (List.perm_nil.mp hp) (by simp)
  | a :: t1, b :: t2, hp, s1, s2, inj => by
    have hmem_a : a ∈ b :: t2 := hp.subset (List.mem_cons_self a t1)
    have hmem_b : b ∈ a :: t1 := hp.symm.subset (List.mem_cons_self b t2)
    have hab : pairToStr a = pairToStr b := by
      rcases List.mem_cons.mp hmem_a with h | h
      · rw [h]
      · rcases List.mem_cons.mp hmem_b with h2 | h2
        · rw [h2]
        · exact pairToStr_eq_of_pairLe
            ((List.sorted_cons.mp s1).1 b h2) ((List.sorted_cons.mp s2).1 a h)
    have hEq : a = b := inj a (List.mem_cons_self a t1) b hmem_b hab
    subst hEq
    have ht : t1 = t2 :=
      ApiCache.sortedPermEq t1 t2 hp.cons_inv
        (List.sorted_cons.mp s1).2 (List.sorted_cons.mp s2).2
        (fun p hp1 q hq1 =>
          inj p (List.mem_cons_of_mem a hp1) q (List.mem_cons_of_mem a hq1))
    rw [ht]

/-! Lemmas about the fetch state machine. -/

theorem ApiCache.fetchRemote_remoteCalled {α : Type} (throws : Nat → Bool)
    (st : CacheState α) (key : String) (now ttl : Nat)
    (remote : Except String α) :
    (ApiCache.fetchRemote throws st key now ttl remote).remoteCalled = true := by
  cases remote with
  | ok data =>
    simp only [ApiCache.fetchRemote]
    cases hn : (ApiCache.runCallbacks throws (listenersFor st.listeners key)).2
    · simp [hn]
    · cases hg : JMap.get (ApiCache.setCached st.memory key data ttl now) key <;>
        simp [hn, hg]
  | error msg =>
    simp only [ApiCache.fetchRemote]
    cases hg : JMap.get st.memory key <;> simp [hg]

theorem ApiCache.fetch_force_ok {α : Type} (throws : Nat → Bool)
    (st : CacheState α) (now : Nat) (endpoint : String)
    (filters : List (String × String)) (ttl : Nat) (data : α) :
    ApiCache.fetch throws st now endpoint filters ttl true (.ok data)
      = ⟨.ok (some data),
          ⟨JMap.set st.memory (ApiCache.getCacheKey endpoint filters)
              ⟨data, now + ttl⟩, st.listeners⟩, true,
          (ApiCache.runCallbacks throws
              (listenersFor st.listeners (ApiCache.getCacheKey endpoint filters))).1⟩ := by
  have hget := JMap.get_set_self st.memory (ApiCache.getCacheKey endpoint filters)
    (⟨data, now + ttl⟩ : Entry α)
  simp only [ApiCache.fetch, ApiCache.fetchRemote, ApiCache.setCached]
  cases hn : (ApiCache.runCallbacks throws
      (listenersFor st.listeners (ApiCache.getCacheKey endpoint filters))).2 <;>
    simp [hn, hget]

theorem ApiCache.runCallbacks_spec (throws : Nat → Bool) : ∀ l : List Nat,
    ApiCache.runCallbacks throws l
      = (l.takeWhile (fun c => !throws c)
            ++ (l.dropWhile (fun c => !throws c)).take 1,
         l.any throws)
  | [] => rfl
  | c :: rest => by
    by_cases hc : throws c = true
    · simp [ApiCache.runCallbacks, hc]
    · have hc' : throws c = false := by simpa using hc
      simp [ApiCache.runCallbacks, hc', ApiCache.runCallbacks_spec throws rest]

/-- C3: a `fetch` with `forceRefresh = false` while the stored entry for the
derived key has an `expiresAt` that has not yet passed returns that entry's
payload immediately, performs no remote call, fires no callbacks, and leaves
the cache state unchanged. -/
theorem claim_C3_cache_hit {α : Type} (throws : Nat → Bool) (st : CacheState α)
    (now : Nat) (endpoint : String) (filters : List (String × String))
    (ttl : Nat) (remote : Except String α) (e : Entry α)
    (hmem : JMap.get st.memory (ApiCache.getCacheKey endpoint filters) = some e)
    (hexp : now ≤ e.expiresAt) :
    ApiCache.fetch throws st now endpoint filters ttl false remote
      = ⟨.ok (some e.data), st, false, []⟩ := by
  have hval : ApiCache.isValidCache st.memory now
      (ApiCache.getCacheKey endpoint filters) = (true, st.memory) := by
    simp only [ApiCache.isValidCache, hmem]
    rw [if_neg (fun h => absurd h.2 (not_lt.mpr hexp))]
  simp only [ApiCache.fetch, hval]
  simp [ApiCache.getCached, hmem]

/-- C3 witness: a concrete cache hit. -/
theorem claim_C3_witness :
    ApiCache.fetch (fun _ => false)
        (⟨[(ApiCache.getCacheKey "E" [], ⟨(7 : Nat), 100⟩)], []⟩ : CacheState Nat)
        50 "E" [] 1000 false (.error "down")
      = ⟨.ok (some 7), ⟨[(ApiCache.getCacheKey "E" [], ⟨7, 100⟩)], []⟩, false, []⟩ :=
  claim_C3_cache_hit (fun _ => false) _ 50 "E" [] 1000 (.error "down")
    ⟨7, 100⟩ (by decide) (by decide)

/-- C1 is stated over the store as it is when `fetch` is called.  The claim
fails: with `forceRefresh = false` on an already-expired entry, the validity
check inside `fetch` deletes the expired entry before the remote call is
made, so when the remote call fails no entry remains and the error
propagates — `fetch` raises instead of returning the stale payload. -/
theorem claim_C1_counterexample :
    (ApiCache.fetch (fun _ => false)
        (⟨[(ApiCache.getCacheKey "E" [], ⟨(7 : Nat), 5⟩)], []⟩ : CacheState Nat)
        10 "E" [] 1000 false (.error "network down")).result
      = .error "network down" ∧
    (ApiCache.fetch (fun _ => false)
        (⟨[(ApiCache.getCacheKey "E" [], ⟨(7 : Nat), 5⟩)], []⟩ : CacheState Nat)
        10 "E" [] 1000 false (.error "network down")).state.memory = [] := by
  constructor <;> decide

/-- C1 (amended): if the remote call fails and an entry still exists in the
store at the moment of the failure handling, `fetch` returns its stale
payload without raising, ignoring expiry — in particular a `forceRefresh =
true` call never evicts, so even an expired entry is served stale.  But a
`forceRefresh = false` call on an already-expired entry lazily evicts it
before the remote call, so the transport failure propagates as an error. -/
theorem claim_C1_amended {α : Type} (throws : Nat → Bool) (st : CacheState α)
    (now : Nat) (endpoint : String) (filters : List (String × String))
    (ttl : Nat) (msg : String) (e : Entry α)
    (hmem : JMap.get st.memory (ApiCache.getCacheKey endpoint filters) = some e) :
    (ApiCache.fetch throws st now endpoint filters ttl true (.error msg)).result
        = .ok (some e.data) ∧
    (e.expiresAt ≠ 0 ∧ now > e.expiresAt →
      (ApiCache.fetch throws st now endpoint filters ttl false (.error msg)).result
          = .error msg) := by
  constructor
  · simp only [ApiCache.fetch, ApiCache.fetchRemote, hmem]
    simp
  · intro hexp
    have hval : ApiCache.isValidCache st.memory now
        (ApiCache.getCacheKey endpoint filters)
        = (false, JMap.erase st.memory (ApiCache.getCacheKey endpoint filters)) := by
      simp only [ApiCache.isValidCache, hmem]
      rw [if_pos hexp]
    have hnone := JMap.get_erase_self st.memory
      (ApiCache.getCacheKey endpoint filters)
    simp only [ApiCache.fetch, hval, ApiCache.fetchRemote, hnone]
    simp

/-- C1 witness: stale fallback on a forced refresh over an expired entry, and
error propagation on an unforced fetch over the same expired entry. -/
theorem claim_C1_witness :
    (ApiCache.fetch (fun _ => false)
        (⟨[(ApiCache.getCacheKey "E" [], ⟨(7 : Nat), 5⟩)], []⟩ : CacheState Nat)
        10 "E" [] 1000 true (.error "down")).result = .ok (some 7) ∧
    (ApiCache.fetch (fun _ => false)
        (⟨[(ApiCache.getCacheKey "E" [], ⟨(7 : Nat), 5⟩)], []⟩ : CacheState Nat)
        10 "E" [] 1000 false (.error "down")).result = .error "down" := by
  have h := claim_C1_amended (fun _ => false)
    (⟨[(ApiCache.getCacheKey "E" [], ⟨(7 : Nat), 5⟩)], []⟩ : CacheState Nat)
    10 "E" [] 1000 "down" ⟨7, 5⟩ (by decide)
  exact ⟨h.1, h.2 (by decide)⟩

/-- C8: `invalidate` followed immediately by a `fetch` without
`forceRefresh` always invokes the remote transport (the invalidated key can
never produce a cache hit), and `invalidate` on an absent key is a no-op
rather than an error. -/
theorem claim_C8_invalidate_then_fetch {α : Type} (throws : Nat → Bool)
    (st : CacheState α) (now : Nat) (endpoint : String)
    (filters : List (String × String)) (ttl : Nat)
    (remote : Except String α) :
    (ApiCache.fetch throws
        ⟨ApiCache.invalidate st.memory endpoint filters, st.listeners⟩ now
        endpoint filters ttl false remote).remoteCalled = true ∧
    (JMap.get st.memory (ApiCache.getCacheKey endpoint filters) = none →
      ApiCache.invalidate st.memory endpoint filters = st.memory) := by
  constructor
  · have hnone : JMap.get (ApiCache.invalidate st.memory endpoint filters)
        (ApiCache.getCacheKey endpoint filters) = none :=
      JMap.get_erase_self _ _
    have hval : ApiCache.isValidCache
        (ApiCache.invalidate st.memory endpoint filters) now
        (ApiCache.getCacheKey endpoint filters)
        = (false, ApiCache.invalidate st.memory endpoint filters) := by
      simp only [ApiCache.isValidCache, hnone]
    simp only [ApiCache.fetch, hval]
    simpa using ApiCache.fetchRemote_remoteCalled throws
      ⟨ApiCache.invalidate st.memory endpoint filters, st.listeners⟩
      (ApiCache.getCacheKey endpoint filters) now ttl remote
  · exact fun h => JMap.erase_of_get_none _ _ h

/-- C8 witness: concrete invalidate-then-fetch and no-op invalidation of an
absent key. -/
theorem claim_C8_witness :
    (ApiCache.fetch (fun _ => false)
        (⟨ApiCache.invalidate ([] : Store Nat) "E" [], []⟩ : CacheState Nat)
        0 "E" [] 1000 false (.ok 5)).remoteCalled = true ∧
    ApiCache.invalidate ([] : Store Nat) "E" [] = [] :=
  ⟨(claim_C8_invalidate_then_fetch (fun _ => false)
      (⟨[], []⟩ : CacheState Nat) 0 "E" [] 1000 (.ok 5)).1,
   (claim_C8_invalidate_then_fetch (fun _ => false)
      (⟨[], []⟩ : CacheState Nat) 0 "E" [] 1000 (.ok 5)).2 rfl⟩

/-- C2 fails as universally quantified: `Array.sort()` compares entries by
the default string conversion `k + "," + v` and is stable, so two distinct
pairs whose conversions collide keep their insertion order.  The permuted
filter mappings `{a: "1,x", "a,1": "x"}` and `{"a,1": "x", a: "1,x"}` (both
conversions are `"a,1,x"`) therefore produce different cache keys. -/
theorem claim_C2_counterexample :
    [("a", "1,x"), ("a,1", "x")].Perm [("a,1", "x"), ("a", "1,x")] ∧
    ApiCache.getCacheKey "r" [("a", "1,x"), ("a,1", "x")] ≠
      ApiCache.getCacheKey "r" [("a,1", "x"), ("a", "1,x")] :=
  ⟨List.Perm.swap ("a,1", "x") ("a", "1,x") [], by decide⟩

/-- C2 (amended): `getCacheKey` is a pure function of its arguments, and it
is invariant under permutation of the filter entries whenever distinct
entries have distinct default string conversions `k + "," + v` (in
particular for all filter mappings whose keys and values are free of the
tie-inducing collisions above). -/
theorem claim_C2_amended (r : String) (f1 f2 : List (String × String))
    (hperm : f1.Perm f2)
    (hinj : ∀ p ∈ f1, ∀ q ∈ f1,
      ApiCache.pairToStr p = ApiCache.pairToStr q → p = q) :
    ApiCache.getCacheKey r f1 = ApiCache.getCacheKey r f2 := by
  have hs : ApiCache.entriesSort f1 = ApiCache.entriesSort f2 :=
    ApiCache.sortedPermEq _ _
      ((ApiCache.perm_entriesSort f1).trans
        (hperm.trans (ApiCache.perm_entriesSort f2).symm))
      (ApiCache.sorted_entriesSort f1) (ApiCache.sorted_entriesSort f2)
      (fun p hp q hq =>
        hinj p ((ApiCache.perm_entriesSort f1).subset hp)
          q ((ApiCache.perm_entriesSort f1).subset hq))
  simp only [ApiCache.getCacheKey, hs]

/-- C2 witness: two permuted collision-free filter mappings produce the same
key. -/
theorem claim_C2_witness :
    ApiCache.getCacheKey "m" [("b", "2"), ("a", "1")]
      = ApiCache.getCacheKey "m" [("a", "1"), ("b", "2")] :=
  claim_C2_amended "m" [("b", "2"), ("a", "1")] [("a", "1"), ("b", "2")]
    (List.Perm.swap ("a", "1") ("b", "2") []) (by decide)

/-- C5 fails: the unsubscribe closure filters by reference equality, so with
the same callback registered twice for a key, one unsubscribe removes both
registrations, and the next successful refresh fires no callback at all
(the claim requires the remaining registration to fire). -/
theorem claim_C5_counterexample :
    listenersFor (ApiCache.unsubscribe
        (ApiCache.onUpdate (ApiCache.onUpdate [] "api_cache_E" 7) "api_cache_E" 7)
        "api_cache_E" 7) "api_cache_E" = [] ∧
    (ApiCache.fetch (fun _ => false)
        (⟨[], ApiCache.unsubscribe
            (ApiCache.onUpdate (ApiCache.onUpdate [] "api_cache_E" 7)
              "api_cache_E" 7) "api_cache_E" 7⟩ : CacheState Nat)
        0 "E" [] 1000 true (.ok 42)).fired = [] := by
  constructor <;> decide

/-- C5 (amended): the unsubscribe handle returned by `onUpdate` removes from
its key every registration whose callback is reference-equal to the one it
was created for — all n duplicates at once, not just one — preserving the
relative order of the other callbacks for that key and leaving every other
key's registrations untouched. -/
theorem claim_C5_amended (ls : Listeners) (k : String) (c : Nat) :
    listenersFor (ApiCache.unsubscribe ls k c) k
        = (listenersFor ls k).filter (fun x => !(x == c)) ∧
    (listenersFor (ApiCache.unsubscribe ls k c) k).count c = 0 ∧
    (∀ k2, k2 ≠ k →
      listenersFor (ApiCache.unsubscribe ls k c) k2 = listenersFor ls k2) := by
  refine ⟨?_, ?_, ?_⟩
  · simp [ApiCache.unsubscribe, listenersFor, JMap.get_set_self]
  · simp only [ApiCache.unsubscribe, listenersFor, JMap.get_set_self,
      Option.getD_some]
    rw [List.count_eq_zero]
    intro hmem
    have := (List.mem_filter.mp hmem).2
    simp at this
  · intro k2 hk2
    simp [ApiCache.unsubscribe, listenersFor, JMap.get_set_ne _ _ _ _ hk2]

/-- C5 witness: unsubscribing one of two distinct callbacks removes exactly
the matching registration and leaves other keys alone. -/
theorem claim_C5_witness :
    listenersFor (ApiCache.unsubscribe [("K", [3, 7, 3])] "K" 3) "K"
        = [7] ∧
    (listenersFor (ApiCache.unsubscribe [("K", [3, 7, 3])] "K" 3) "K").count 3
        = 0 ∧
    listenersFor (ApiCache.unsubscribe [("K", [3, 7, 3])] "K" 3) "Q"
        = listenersFor [("K", [3, 7, 3])] "Q" := by
  have h := claim_C5_amended [("K", [3, 7, 3])] "K" 3
  exact ⟨by rw [h.1]; decide, h.2.1, h.2.2 "Q" (by decide)⟩

/-- C6 fails in its "does not prevent later callbacks" part: callbacks run
via `forEach`, so when callback 1 (of the registration list `[1, 2]`)
throws, the iteration aborts and callback 2 never fires. -/
theorem claim_C6_counterexample :
    (ApiCache.fetch (fun c => c == 1)
        (⟨[], [("api_cache_E", [1, 2])]⟩ : CacheState Nat)
        0 "E" [] 1000 true (.ok 42)).fired = [1] := by
  decide

/-- C6 (amended): on a successful refresh the registered callbacks for the
key are invoked in registration order; if none throws, all of them fire;
if one throws, exactly the callbacks up to and including the first throwing
one fire and the rest are skipped.  The cache state is not corrupted: the
refreshed entry is stored with its new payload and expiry regardless, and
`fetch` still returns the new payload (the callback's exception is caught
by `fetch`'s own catch block, whose stale fallback finds the just-written
entry). -/
theorem claim_C6_amended {α : Type} (throws : Nat → Bool) (st : CacheState α)
    (now : Nat) (endpoint : String) (filters : List (String × String))
    (ttl : Nat) (data : α) :
    (ApiCache.fetch throws st now endpoint filters ttl true (.ok data)).fired
        = (listenersFor st.listeners (ApiCache.getCacheKey endpoint filters)).takeWhile
              (fun c => !throws c)
            ++ ((listenersFor st.listeners
                  (ApiCache.getCacheKey endpoint filters)).dropWhile
                  (fun c => !throws c)).take 1 ∧
    JMap.get (ApiCache.fetch throws st now endpoint filters ttl true
          (.ok data)).state.memory (ApiCache.getCacheKey endpoint filters)
        = some ⟨data, now + ttl⟩ ∧
    (ApiCache.fetch throws st now endpoint filters ttl true (.ok data)).result
        = .ok (some data) ∧
    ((∀ c ∈ listenersFor st.listeners (ApiCache.getCacheKey endpoint filters),
        throws c = false) →
      (ApiCache.fetch throws st now endpoint filters ttl true (.ok data)).fired
          = listenersFor st.listeners (ApiCache.getCacheKey endpoint filters)) := by
  rw [ApiCache.fetch_force_ok]
  refine ⟨?_, ?_, rfl, ?_⟩
  · rw [ApiCache.runCallbacks_spec]
  · exact JMap.get_set_self _ _ _
  · intro hall
    rw [ApiCache.runCallbacks_spec]
    have htake : (listenersFor st.listeners
        (ApiCache.getCacheKey endpoint filters)).takeWhile (fun c => !throws c)
        = listenersFor st.listeners (ApiCache.getCacheKey endpoint filters) :=
      List.takeWhile_eq_self_iff.mpr (fun c hc => by simp [hall c hc])
    have hdrop : (listenersFor st.listeners
        (ApiCache.getCacheKey endpoint filters)).dropWhile (fun c => !throws c)
        = [] :=
      List.dropWhile_eq_nil_iff.mpr (fun c hc => by simp [hall c hc])
    simp [htake, hdrop]

/-- C6 witness: with no throwing callback, both registered callbacks fire in
order and the refreshed entry is stored. -/
theorem claim_C6_witness :
    (ApiCache.fetch (fun _ => false)
        (⟨[], [("api_cache_E", [1, 2])]⟩ : CacheState Nat)
        0 "E" [] 1000 true (.ok 42)).fired = [1, 2] ∧
    JMap.get (ApiCache.fetch (fun _ => false)
        (⟨[], [("api_cache_E", [1, 2])]⟩ : CacheState Nat)
        0 "E" [] 1000 true (.ok 42)).state.memory
        (ApiCache.getCacheKey "E" []) = some ⟨42, 1000⟩ := by
  have h := claim_C6_amended (fun _ => false)
    (⟨[], [("api_cache_E", [1, 2])]⟩ : CacheState Nat) 0 "E" [] 1000 42
  refine ⟨?_, h.2.1⟩
  have h4 := h.2.2.2 (fun c _ => rfl)
  rw [h4]
  decide

/-- C4: every orchestrator write whose remote call returns a non-success
status raises an error and invalidates no cache key: the cache state is left
exactly as it was when the failing remote call was issued (for
`updateMember` this is the state produced by its preceding forced member
refresh, which the failed write leaves untouched). -/
theorem claim_C4_write_failure_atomic (st : CacheState (List Row))
    (body : String) (md td ld : Row) (loanId memberName : String)
    (throws : Nat → Bool) (now : Nat) (members : List Row) :
    dataManager.addMember md st ⟨false, body⟩
        = ⟨.error "Failed to add member", st⟩ ∧
    dataManager.addTransaction td st ⟨false, body⟩
        = ⟨.error "Failed to add transaction", st⟩ ∧
    dataManager.updateLoan loanId ld st ⟨false, body⟩
        = ⟨.error "Failed to update loan", st⟩ ∧
    dataManager.addLoan ld st ⟨false, body⟩
        = ⟨.error "Failed to add loan", st⟩ ∧
    dataManager.deleteMember memberName st ⟨false, body⟩
        = ⟨.error "Failed to delete member", st⟩ ∧
    dataManager.deleteTransactions memberName st ⟨false, body⟩
        = ⟨.error "Failed to delete transactions", st⟩ ∧
    ((dataManager.updateMember throws st now memberName (.ok members)
          ⟨false, body⟩).state
        = (dataManager.getMembers throws st now true (.ok members)).state ∧
      ∃ msg, (dataManager.updateMember throws st now memberName (.ok members)
          ⟨false, body⟩).result = .error msg) := by
  have hf := ApiCache.fetch_force_ok throws st now dataManager.MEMBERS []
    dataManager.CACHE_TTL_MEMBERS members
  refine ⟨rfl, rfl, rfl, rfl, rfl, rfl, ?_, ?_⟩
  · simp only [dataManager.updateMember, dataManager.getMembers, hf]
    cases hfind : members.find? (fun m => m.Name == some memberName) with
    | none => rfl
    | some member =>
      by_cases hid : truthy member.Id = true <;> simp [hid]
  · simp only [dataManager.updateMember, dataManager.getMembers, hf]
    cases hfind : members.find? (fun m => m.Name == some memberName) with
    | none => exact ⟨_, rfl⟩
    | some member =>
      by_cases hid : truthy member.Id = true <;> simp [hid]

/-- C7: `updateMember` over a forced-fresh member list that contains no
record with the exact target `Name`, or whose matching record has a JS-falsy
`Id`, raises the not-found error without attempting the remote write, and
the members cache key is not invalidated: the freshly refreshed members
entry is still stored afterwards. -/
theorem claim_C7_update_member_not_found (throws : Nat → Bool)
    (st : CacheState (List Row)) (now : Nat) (memberName : String)
    (members : List Row) (putResp : Resp)
    (h : ∀ m, members.find? (fun m => m.Name == some memberName) = some m →
        truthy m.Id = false) :
    (dataManager.updateMember throws st now memberName (.ok members)
          putResp).result
        = .error ("Member \"" ++ memberName ++ "\" not found or missing Id") ∧
    (dataManager.updateMember throws st now memberName (.ok members)
          putResp).wroteRemote = false ∧
    JMap.get (dataManager.updateMember throws st now memberName (.ok members)
          putResp).state.memory (ApiCache.getCacheKey dataManager.MEMBERS [])
        = some ⟨members, now + dataManager.CACHE_TTL_MEMBERS⟩ := by
  have hf := ApiCache.fetch_force_ok throws st now dataManager.MEMBERS []
    dataManager.CACHE_TTL_MEMBERS members
  have hget := JMap.get_set_self st.memory
    (ApiCache.getCacheKey dataManager.MEMBERS [])
    (⟨members, now + dataManager.CACHE_TTL_MEMBERS⟩ : Entry (List Row))
  simp only [dataManager.updateMember, dataManager.getMembers, hf]
  cases hfind : members.find? (fun m => m.Name == some memberName) with
  | none => exact ⟨rfl, rfl, hget⟩
  | some member =>
    have hid := h member hfind
    simp [hid, hget]

/-- C7 witness: updating a member absent from the forced-fresh list raises
the not-found error and keeps the refreshed members entry cached. -/
theorem claim_C7_witness :
    (dataManager.updateMember (fun _ => false)
          (⟨[], []⟩ : CacheState (List Row)) 0 "Alice"
          (.ok [⟨some "Bob", some "2", "x"⟩]) ⟨true, "B"⟩).result
        = .error "Member \"Alice\" not found or missing Id" ∧
    (dataManager.updateMember (fun _ => false)
          (⟨[], []⟩ : CacheState (List Row)) 0 "Alice"
          (.ok [⟨some "Bob", some "2", "x"⟩]) ⟨true, "B"⟩).wroteRemote = false ∧
    JMap.get (dataManager.updateMember (fun _ => false)
          (⟨[], []⟩ : CacheState (List Row)) 0 "Alice"
          (.ok [⟨some "Bob", some "2", "x"⟩]) ⟨true, "B"⟩).state.memory
        (ApiCache.getCacheKey dataManager.MEMBERS [])
        = some ⟨[⟨some "Bob", some "2", "x"⟩], 1800000⟩ := by
  have h := claim_C7_update_member_not_found (fun _ => false)
    (⟨[], []⟩ : CacheState (List Row)) 0 "Alice"
    [⟨some "Bob", some "2", "x"⟩] ⟨true, "B"⟩
    (fun m hm => by simp at hm)
  exact ⟨h.1.trans (by decide), h.2.1, h.2.2⟩

/-- C9: `deleteTransactionById` on a successful remote delete returns the
decoded response body and leaves the cache state entirely unchanged — in
particular the cached transactions payload is exactly as before — whereas
`deleteTransactions` invalidates the transactions cache key. -/
theorem claim_C9_deleteTransactionById_frame (st : CacheState (List Row))
    (id memberName : String) (body : String) :
    dataManager.deleteTransactionById id st ⟨true, body⟩ = ⟨.ok body, st⟩ ∧
    ApiCache.getCached
        (dataManager.deleteTransactionById id st ⟨true, body⟩).state.memory
        (ApiCache.getCacheKey dataManager.TRANSACTIONS [])
      = ApiCache.getCached st.memory
          (ApiCache.getCacheKey dataManager.TRANSACTIONS []) ∧
    dataManager.deleteTransactions memberName st ⟨true, body⟩
      = ⟨.ok body,
          ⟨ApiCache.invalidate st.memory dataManager.TRANSACTIONS [],
            st.listeners⟩⟩ :=
  ⟨rfl, rfl, rfl⟩

/-- C10: with a non-empty query, `searchMembers` returns only records whose
`Name` field is present (records lacking the field are filtered out before
the substring match), while with the empty query it returns the full cached
list unchanged, including records lacking a `Name`. -/
theorem claim_C10_searchMembers (mem : Store (List Row)) (query : String)
    (data : List Row) :
    (query ≠ "" →
      (dataManager.searchMembers mem query).all (fun m => m.Name.isSome)
          = true) ∧
    (ApiCache.getCached mem (ApiCache.getCacheKey dataManager.MEMBERS [])
        = some data →
      dataManager.searchMembers mem "" = data) := by
  constructor
  · intro hq
    simp only [dataManager.searchMembers]
    cases hg : ApiCache.getCached mem
        (ApiCache.getCacheKey dataManager.MEMBERS []) with
    | none => rfl
    | some d =>
      have hq' : (query == "") = false := by
        simpa using hq
      simp only [hq', Bool.false_eq_true, if_false]
      rw [List.all_eq_true]
      intro m hm
      have hp := (List.mem_filter.mp hm).2
      have ht : truthy m.Name = true := by
        simp only [Bool.and_eq_true] at hp
        exact hp.1
      cases hname : m.Name with
      | none => rw [hname] at ht; exact absurd ht (by simp [truthy])
      | some s => simp
  · intro hg
    simp [dataManager.searchMembers, hg]

/-- C10 witness: a cached list with one Name-less record and one named
record; the non-empty query filters the Name-less record out, the empty
query returns the full list including it. -/
theorem claim_C10_witness :
    (dataManager.searchMembers
          [(ApiCache.getCacheKey dataManager.MEMBERS [],
            ⟨[⟨none, none, "n"⟩, ⟨some "Asha", some "1", ""⟩], 99⟩)]
          "sh").all (fun m => m.Name.isSome) = true ∧
    dataManager.searchMembers
          [(ApiCache.getCacheKey dataManager.MEMBERS [],
            ⟨[⟨none, none, "n"⟩, ⟨some "Asha", some "1", ""⟩], 99⟩)]
          ""
        = [⟨none, none, "n"⟩, ⟨some "Asha", some "1", ""⟩] := by
  have h := claim_C10_searchMembers
    [(ApiCache.getCacheKey dataManager.MEMBERS [],
      ⟨[⟨none, none, "n"⟩, ⟨some "Asha", some "1", ""⟩], 99⟩)]
    "sh" [⟨none, none, "n"⟩, ⟨some "Asha", some "1", ""⟩]
  exact ⟨h.1 (by decide), h.2 (by decide)⟩
